import Mathlib

/-!
Verification of the vtgate Resolver layer (resolver.go) and the topo
shard-replication record update (replication.go).

Strings are modelled as `List Char` (`Str`); Go maps as functions
`Str → Option _`; the topology service, ScatterConn and the per-call
closures as explicit oracle environments indexed by call number.
-/

abbrev Str := List Char

/-- ASCII lower-casing of one character, the effect of Go's
`strings.ToLower` on the ASCII inputs this code handles. -/
def lowerChar (c : Char) : Char :=
  if 'A' ≤ c ∧ c ≤ 'Z' then Char.ofNat (c.toNat + 32) else c

/-- `strings.ToLower` on a whole string. -/
def lowerStr (s : Str) : Str := s.map lowerChar

/-- Index of the first occurrence of `pat` in `s`, `none` when absent:
Go's `strings.Index` (which returns -1 for absent). -/
def firstIdx (pat : Str) : Str → Option Nat
  | [] => if pat.isPrefixOf ([] : Str) then some 0 else none
  | c :: t =>
    if pat.isPrefixOf (c :: t) then some 0
    else (firstIdx pat t).map (· + 1)

/-- Go's `strings.Contains`. -/
def containsSub (s pat : Str) : Bool := (firstIdx pat s).isSome

/-- `pat` occurs in `s` at position `i`. -/
def occursAt (pat s : Str) (i : Nat) : Prop := pat.isPrefixOf (s.drop i) = true

instance (pat s : Str) (i : Nat) : Decidable (occursAt pat s i) := by
  unfold occursAt; infer_instance

/-- One step of the splice-index scan in `insertSqlClause`: Go's
`if idx := strings.Index(sql, kw); idx > 0 && idx < idxExtra { idxExtra = idx }`. -/
def minStep (sql kw : Str) (idxExtra : Nat) : Nat :=
  match firstIdx kw sql with
  | some i => if 0 < i ∧ i < idxExtra then i else idxExtra
  | none => idxExtra

def kwGroupBy : Str := " group by".toList
def kwOrderBy : Str := " order by".toList
def kwLimit : Str := " limit".toList
def kwForUpdate : Str := " for update".toList

/-- The four clause keywords scanned by `insertSqlClause`, in scan order. -/
def spliceKws : List Str := [kwGroupBy, kwOrderBy, kwLimit, kwForUpdate]

/-- The splice index computed by `insertSqlClause` on the lower-cased SQL:
start at end-of-string, then lower it to each keyword's first occurrence
when that occurrence is strictly positive and smaller. -/
def spliceIdx (sql : Str) : Nat :=
  minStep sql kwForUpdate
    (minStep sql kwLimit
      (minStep sql kwOrderBy
        (minStep sql kwGroupBy sql.length)))

/-- The prefix put before the spliced clause: `" and "` when the lower-cased
SQL contains `"where"`, `" where "` otherwise. -/
def clausePfx (sql : Str) : Str :=
  if containsSub sql "where".toList then " and ".toList else " where ".toList

/-- vtgate's `insertSqlClause`: splice `clause` into `querySql` before any
trailing group-by / order-by / limit / for-update clause. -/
def insertSqlClause (querySql clause : Str) : Str :=
  let sql := lowerStr querySql
  let idxExtra := spliceIdx sql
  querySql.take idxExtra
    ++ clausePfx sql
    ++ clause
    ++ (if idxExtra < sql.length then querySql.drop idxExtra else [])

/-- Number of (possibly overlapping) occurrences of `pat` in `s`. -/
def countSub (pat s : Str) : Nat :=
  (List.range (s.length + 1)).countP (fun i => pat.isPrefixOf (s.drop i))

-- Basic facts about the splice machinery.

theorem lowerStr_length (s : Str) : (lowerStr s).length = s.length :=
  List.length_map s lowerChar

theorem minStep_le (sql kw : Str) (idxExtra : Nat) : minStep sql kw idxExtra ≤ idxExtra := by
  unfold minStep
  cases firstIdx kw sql with
  | none => exact Nat.le_refl _
  | some i =>
    simp only
    split
    · omega
    · exact Nat.le_refl _

theorem spliceIdx_le_length (sql : Str) : spliceIdx sql ≤ sql.length :=
  le_trans (minStep_le _ _ _) <|
    le_trans (minStep_le _ _ _) <|
      le_trans (minStep_le _ _ _) (minStep_le _ _ _)

/-- `insertSqlClause` always produces the take/drop splice form (the final
conditional append of the source is equivalent to an unconditional drop). -/
theorem insertSqlClause_form (querySql clause : Str) :
    insertSqlClause querySql clause =
      querySql.take (spliceIdx (lowerStr querySql))
        ++ clausePfx (lowerStr querySql)
        ++ clause
        ++ querySql.drop (spliceIdx (lowerStr querySql)) := by
  unfold insertSqlClause
  simp only
  split
  · rfl
  · rename_i h
    have hle : querySql.length ≤ spliceIdx (lowerStr querySql) := by
      have := lowerStr_length querySql
      omega
    rw [List.drop_eq_nil_of_le hle]

-- Lexicographic order on strings: Go's `sort.Strings` comparison.

/-- Lexicographic `≤` on strings (bytewise in Go; characterwise here). -/
def strLeB : Str → Str → Bool
  | [], _ => true
  | _ :: _, [] => false
  | a :: as, b :: bs => if a < b then true else if b < a then false else strLeB as bs

theorem strLeB_cons_iff {a b : Char} {as bs : Str} :
    strLeB (a :: as) (b :: bs) = true ↔ a < b ∨ (a = b ∧ strLeB as bs = true) := by
  by_cases hab : a < b
  · simp [strLeB, hab]
  · by_cases hba : b < a
    · have hne : a ≠ b := fun he => absurd (he ▸ hba) (lt_irrefl _)
      simp [strLeB, hab, hba, hne]
    · have heq : a = b := le_antisymm (not_lt.mp hba) (not_lt.mp hab)
      simp [strLeB, hab, hba, heq]

theorem strLeB_total : ∀ x y : Str, strLeB x y = true ∨ strLeB y x = true
  | [], _ => Or.inl rfl
  | _ :: _, [] => Or.inr rfl
  | a :: as, b :: bs => by
    rcases lt_trichotomy a b with h | h | h
    · exact Or.inl (strLeB_cons_iff.mpr (Or.inl h))
    · subst h
      rcases strLeB_total as bs with ih | ih
      · exact Or.inl (strLeB_cons_iff.mpr (Or.inr ⟨rfl, ih⟩))
      · exact Or.inr (strLeB_cons_iff.mpr (Or.inr ⟨rfl, ih⟩))
    · exact Or.inr (strLeB_cons_iff.mpr (Or.inl h))

theorem strLeB_trans : ∀ x y z : Str,
    strLeB x y = true → strLeB y z = true → strLeB x z = true
  | [], _, _, _, _ => rfl
  | _ :: _, [], _, h, _ => by simp [strLeB] at h
  | _ :: _, _ :: _, [], _, h => by simp [strLeB] at h
  | a :: as, b :: bs, c :: cs, h1, h2 => by
    rcases strLeB_cons_iff.mp h1 with hab | ⟨rfl, hab⟩
    · rcases strLeB_cons_iff.mp h2 with hbc | ⟨rfl, hbc⟩
      · exact strLeB_cons_iff.mpr (Or.inl (lt_trans hab hbc))
      · exact strLeB_cons_iff.mpr (Or.inl hab)
    · rcases strLeB_cons_iff.mp h2 with hbc | ⟨rfl, hbc⟩
      · exact strLeB_cons_iff.mpr (Or.inl hbc)
      · exact strLeB_cons_iff.mpr (Or.inr ⟨rfl, strLeB_trans as bs cs hab hbc⟩)

theorem strLeB_antisymm : ∀ x y : Str, strLeB x y = true → strLeB y x = true → x = y
  | [], [], _, _ => rfl
  | [], _ :: _, _, h => by simp [strLeB] at h
  | _ :: _, [], h, _ => by simp [strLeB] at h
  | a :: as, b :: bs, h1, h2 => by
    rcases strLeB_cons_iff.mp h1 with hab | ⟨rfl, hab⟩
    · rcases strLeB_cons_iff.mp h2 with hba | ⟨heq, _⟩
      · exact absurd hba (lt_asymm hab)
      · exact absurd hab (heq ▸ lt_irrefl a)
    · rcases strLeB_cons_iff.mp h2 with hba | ⟨-, hba⟩
      · exact absurd hba (lt_irrefl a)
      · rw [strLeB_antisymm as bs hab hba]

/-- The ordering relation used to model `sort.Strings`. -/
def strLe (a b : Str) : Prop := strLeB a b = true

instance : DecidableRel strLe := fun a b => inferInstanceAs (Decidable (strLeB a b = true))

instance : IsTotal Str strLe := ⟨strLeB_total⟩

instance : IsTrans Str strLe := ⟨strLeB_trans⟩

instance : IsAntisymm Str strLe := ⟨strLeB_antisymm⟩

/-- The effect of Go's `sort.Strings` on a slice. -/
def sortStrs (l : List Str) : List Str := List.insertionSort strLe l

theorem sortStrs_perm (l : List Str) : List.Perm (sortStrs l) l := List.perm_insertionSort _ _

theorem sortStrs_sorted (l : List Str) : List.Sorted strLe (sortStrs l) :=
  List.sorted_insertionSort _ _

theorem sortStrs_eq_of_perm {a b : List Str} (h : List.Perm a b) : sortStrs a = sortStrs b :=
  List.eq_of_perm_of_sorted ((sortStrs_perm a).trans (h.trans (sortStrs_perm b).symm))
    (sortStrs_sorted a) (sortStrs_sorted b)

/-- The element-by-element comparison loop at the end of `StrsEquals`
(iterating over the first slice's indices). -/
def eqElems : List Str → List Str → Bool
  | [], _ => true
  | _ :: _, [] => false
  | a :: as, b :: bs => if a = b then eqElems as bs else false

theorem eqElems_refl : ∀ l : List Str, eqElems l l = true
  | [] => rfl
  | a :: as => by simp [eqElems, eqElems_refl as]

theorem eqElems_eq_true_iff : ∀ x y : List Str, x.length = y.length →
    (eqElems x y = true ↔ x = y)
  | [], [], _ => by simp [eqElems]
  | [], _ :: _, h => by simp at h
  | _ :: _, [], h => by simp at h
  | a :: as, b :: bs, h => by
    simp only [List.length_cons, Nat.add_right_cancel_iff] at h
    unfold eqElems
    split
    · rename_i he
      subst he
      rw [eqElems_eq_true_iff as bs h]
      simp
    · rename_i he
      simp [he]

/-- `StrsEquals` together with its in-place mutation of both slices:
the returned triple is (result, state of the first slice after the call,
state of the second slice after the call). The slices are sorted in place
only after the length check passes. -/
def strsEqualsSt (a b : List Str) : Bool × List Str × List Str :=
  if a.length ≠ b.length then (false, a, b)
  else (eqElems (sortStrs a) (sortStrs b), sortStrs a, sortStrs b)

/-- The value returned by vtgate's `StrsEquals`. -/
def StrsEquals (a b : List Str) : Bool := (strsEqualsSt a b).1

theorem strsEquals_eq_true_iff_perm (a b : List Str) : StrsEquals a b = true ↔ List.Perm a b := by
  unfold StrsEquals strsEqualsSt
  split
  · rename_i h
    simp only [Bool.false_eq_true, false_iff]
    exact fun hp => h hp.length_eq
  · rename_i h
    rw [not_not] at h
    have hlen : (sortStrs a).length = (sortStrs b).length := by
      rw [(sortStrs_perm a).length_eq, (sortStrs_perm b).length_eq]; exact h
    simp only
    rw [eqElems_eq_true_iff _ _ hlen]
    constructor
    · intro he
      exact (sortStrs_perm a).symm.trans (he ▸ sortStrs_perm b)
    · intro hp
      exact sortStrs_eq_of_perm hp

-- The Resolver retry loop (Resolver.Execute / Resolver.ExecuteBatch).

/-- Error codes of `ShardConnError` (tabletconn's closed set). -/
inductive ErrCode where
  | ok
  | retry
  | fatal
  | txPoolFull
  | notServing
deriving DecidableEq

/-- Errors visible to the Resolver: a structured `*ShardConnError`
(carrying its code and message) or any other error. -/
inductive VtError where
  | shardConnErr (code : ErrCode) (msg : Str)
  | generic (msg : Str)
deriving DecidableEq

instance {e a : Type} [DecidableEq e] [DecidableEq a] : DecidableEq (Except e a) := fun x y =>
  match x, y with
  | .error e1, .error e2 =>
    if h : e1 = e2 then isTrue (by rw [h]) else isFalse (fun hc => by injection hc; contradiction)
  | .error _, .ok _ => isFalse (fun hc => Except.noConfusion hc)
  | .ok _, .error _ => isFalse (fun hc => Except.noConfusion hc)
  | .ok a1, .ok a2 =>
    if h : a1 = a2 then isTrue (by rw [h]) else isFalse (fun hc => by injection hc; contradiction)

/-- Opaque aggregated query result. -/
structure QueryResult where
  val : Nat
deriving DecidableEq

/-- Oracle environment for one Resolver.Execute / ExecuteBatch invocation:
`dispatch n ks shards` is what the n-th ScatterConn call returns,
`keyspaceAlias n ks` what the n-th `getKeyspaceAlias` call returns, and
`mapToShards n ks` what the n-th call of the resolution closure returns
(call 0 is the resolution performed before the loop). -/
structure RetryEnv (R : Type) where
  dispatch : Nat → Str → List Str → Except VtError R
  keyspaceAlias : Nat → Str → Except VtError Str
  mapToShards : Nat → Str → Except VtError (List Str)

/-- The keyspace after the `getKeyspaceAlias` check of one retry round:
errors from `getKeyspaceAlias` are swallowed and leave the keyspace
unchanged (`if err == nil && newKeyspace != keyspace`). -/
def retryResolve {R : Type} (env : RetryEnv R) (round : Nat) (keyspace : Str) : Str :=
  match env.keyspaceAlias round keyspace with
  | .ok newKs => newKs
  | .error _ => keyspace

/-- The shard slice after the `StrsEquals(newShards, shards)` comparison of
one retry round: `StrsEquals` sorts both slices in place (when the lengths
match), and `shards = newShards` is executed only when they were unequal. -/
def nextShards (newShards shards : List Str) : List Str :=
  if (strsEqualsSt newShards shards).1 then (strsEqualsSt newShards shards).2.2
  else (strsEqualsSt newShards shards).2.1

/-- One retry-loop body, shared verbatim by `Resolver.Execute` and
`Resolver.ExecuteBatch` in the source. `fuel` bounds the number of
iterations modelled (the Go loop is unbounded; `none` means the run was
still looping after `fuel` dispatches). Returns the outcome and the trace
of dispatch calls (keyspace and shard list of each ScatterConn call). -/
def resolverLoop {R : Type} (env : RetryEnv R) :
    Nat → Nat → Str → List Str → Option (Except VtError R) × List (Str × List Str)
  | 0, _, _, _ => (none, [])
  | fuel + 1, round, keyspace, shards =>
    match env.dispatch round keyspace shards with
    | .error (.shardConnErr .retry msg) =>
      -- check keyspace change for vertical resharding
      let ksAfter := retryResolve env round keyspace
      -- check shards change for horizontal resharding
      match env.mapToShards (round + 1) ksAfter with
      | .error e => (some (.error e), [(keyspace, shards)])
      | .ok newShards =>
        -- retry if resharding happened
        if decide (ksAfter ≠ keyspace) || !StrsEquals newShards shards then
          let rest := resolverLoop env fuel (round + 1) ksAfter (nextShards newShards shards)
          (rest.1, (keyspace, shards) :: rest.2)
        else
          (some (.error (.shardConnErr .retry msg)), [(keyspace, shards)])
    | .error e => (some (.error e), [(keyspace, shards)])
    | .ok qr => (some (.ok qr), [(keyspace, shards)])

/-- `Resolver.Execute`: resolve once, then run the retry loop. -/
def ResolverExecute (env : RetryEnv QueryResult) (fuel : Nat) (keyspace : Str) :
    Option (Except VtError QueryResult) × List (Str × List Str) :=
  match env.mapToShards 0 keyspace with
  | .error e => (some (.error e), [])
  | .ok shards => resolverLoop env fuel 0 keyspace shards

/-- `Resolver.ExecuteBatch`: identical loop, list-of-results payload. -/
def ResolverExecuteBatch (env : RetryEnv (List QueryResult)) (fuel : Nat) (keyspace : Str) :
    Option (Except VtError (List QueryResult)) × List (Str × List Str) :=
  match env.mapToShards 0 keyspace with
  | .error e => (some (.error e), [])
  | .ok shards => resolverLoop env fuel 0 keyspace shards

-- Resolver.StreamExecute.

/-- Oracle environment for one `Resolver.StreamExecute` invocation. -/
structure StreamEnv where
  mapToShards : Str → Except VtError (List Str)
  streamDispatch : Str → List Str → Except VtError Unit

/-- `Resolver.StreamExecute`: resolve, require exactly one shard, stream
through; no retry loop. Returns the outcome and the trace of
`ScatterConn.StreamExecute` calls. -/
def ResolverStreamExecute (env : StreamEnv) (keyspace : Str) :
    Except VtError Unit × List (Str × List Str) :=
  match env.mapToShards keyspace with
  | .error e => (.error e, [])
  | .ok shards =>
    if shards.length ≠ 1 then
      (.error (.generic "Resolved to more than one shard".toList), [])
    else
      (env.streamDispatch keyspace shards, [(keyspace, shards)])

-- buildEntityIds and Resolver.ExecuteEntityIds.

/-- Decimal digit character. -/
def digitChar (n : Nat) : Char := Char.ofNat (48 + n)

/-- Fuel-bounded digit expansion (structural, so that it computes). -/
def natDigitsAux : Nat → Nat → Str
  | 0, _ => []
  | fuel + 1, n =>
    if n < 10 then [digitChar n]
    else natDigitsAux fuel (n / 10) ++ [digitChar (n % 10)]

/-- Decimal representation of a natural number, as produced by Go's
`fmt.Sprintf("%v", i)` for a non-negative index. -/
def natDigits (n : Nat) : Str := natDigitsAux (n + 1) n

/-- Bind-variable values: a keyspace id inserted by `buildEntityIds`, or
any pre-existing opaque value. -/
inductive BindVal where
  | kid (k : Str)
  | other (n : Nat)
deriving DecidableEq

/-- Go map insertion (`m[k] = v`), on maps modelled as functions. -/
def fnUpd {β : Type} (m : Str → Option β) (k : Str) (v : β) : Str → Option β :=
  fun k' => if k' = k then some v else m k'

/-- The generated bind-variable name `entityColName ++ i`
(`fmt.Sprintf("%v%v", entityColName, i)`). -/
def bvName (col : Str) (i : Nat) : Str := col ++ natDigits i

/-- The argument list written inside the IN clause:
`:col0, :col1, …` starting at index `i`. -/
def inClauseArgs (col : Str) : Nat → List Str → Str
  | _, [] => []
  | i, _ :: rest =>
    (if 0 < i then ", ".toList else []) ++ (':' :: bvName col i) ++ inClauseArgs col (i + 1) rest

/-- The spliced predicate `col in (:col0, :col1, …)` built per shard. -/
def inClause (col : Str) (kids : List Str) : Str :=
  col ++ " in (".toList ++ inClauseArgs col 0 kids ++ ")".toList

/-- The per-shard bind-variable map: the cloned original bindings with
`col0 ↦ kid₀, col1 ↦ kid₁, …` inserted on top. -/
def addKidBindings (col : Str) : (Str → Option BindVal) → Nat → List Str → (Str → Option BindVal)
  | m, _, [] => m
  | m, i, kid :: rest => addKidBindings col (fnUpd m (bvName col i) (.kid kid)) (i + 1) rest

/-- vtgate's `buildEntityIds`. The shard map (a Go map) is modelled as an
association list fixing one iteration order; the returned `sqls` and
`bindVars` maps are modelled as functions. -/
def buildEntityIds (shardMap : List (Str × List Str)) (qSql col : Str)
    (qBindVars : Str → Option BindVal) :
    List Str × (Str → Option Str) × (Str → Option (Str → Option BindVal)) :=
  match shardMap with
  | [] => ([], fun _ => none, fun _ => none)
  | (shard, kids) :: rest =>
    let r := buildEntityIds rest qSql col qBindVars
    (shard :: r.1,
     fnUpd r.2.1 shard (insertSqlClause qSql (inClause col kids)),
     fnUpd r.2.2 shard (addKidBindings col qBindVars 0 kids))

/-- Oracle environment for one `Resolver.ExecuteEntityIds` invocation. -/
structure EntityEnv where
  dispatch : Nat → List Str → (Str → Option Str) → (Str → Option (Str → Option BindVal)) →
    Str → Except VtError QueryResult
  keyspaceAlias : Nat → Str → Except VtError Str
  mapEntityIds : Nat → Str → Except VtError (List (Str × List Str))

/-- The retry loop of `Resolver.ExecuteEntityIds`: on a RETRY error it
re-reads the keyspace alias (errors swallowed), re-maps the entity ids,
rebuilds shards/sqls/bindVars, and retries only when the keyspace or the
shard multiset changed. -/
def entityRetryResolve (env : EntityEnv) (round : Nat) (keyspace : Str) : Str :=
  match env.keyspaceAlias round keyspace with
  | .ok newKs => newKs
  | .error _ => keyspace

def resolverEntityLoop (env : EntityEnv) (qSql col : Str) (qBV : Str → Option BindVal) :
    Nat → Nat → Str → List Str → (Str → Option Str) →
    (Str → Option (Str → Option BindVal)) → Option (Except VtError QueryResult)
  | 0, _, _, _, _, _ => none
  | fuel + 1, round, keyspace, shards, sqls, bindVars =>
    match env.dispatch round shards sqls bindVars keyspace with
    | .error (.shardConnErr .retry msg) =>
      let ksAfter := entityRetryResolve env round keyspace
      match env.mapEntityIds (round + 1) ksAfter with
      | .error e => some (.error e)
      | .ok newShardMap =>
        let built := buildEntityIds newShardMap qSql col qBV
        let cmp := StrsEquals built.1 shards
        let sqlsNext := if cmp then sqls else built.2.1
        let bindVarsNext := if cmp then bindVars else built.2.2
        if decide (ksAfter ≠ keyspace) || !cmp then
          resolverEntityLoop env qSql col qBV fuel (round + 1) ksAfter
            (nextShards built.1 shards) sqlsNext bindVarsNext
        else
          some (.error (.shardConnErr .retry msg))
    | .error e => some (.error e)
    | .ok qr => some (.ok qr)

/-- `Resolver.ExecuteEntityIds`: map the entity ids, build the per-shard
queries, then run the retry loop. -/
def ResolverExecuteEntityIds (env : EntityEnv) (qSql col : Str) (qBV : Str → Option BindVal)
    (fuel : Nat) (keyspace : Str) : Option (Except VtError QueryResult) :=
  match env.mapEntityIds 0 keyspace with
  | .error e => some (.error e)
  | .ok shardMap =>
    let built := buildEntityIds shardMap qSql col qBV
    resolverEntityLoop env qSql col qBV fuel 0 keyspace built.1 built.2.1 built.2.2

-- topo: ShardReplication record update (replication.go).

/-- A tablet address in the topology.
Modelled from the spec: `TabletAlias` (a cell name and a numeric uid) and
its `IsZero` test live outside the excerpted sources; `IsZero` is Go's
zero-value test. -/
structure TabletAlias where
  cell : Str
  uid : Nat
deriving DecidableEq

def TabletAlias.isZero (a : TabletAlias) : Bool := decide (a = ⟨[], 0⟩)

/-- A MySQL replication relationship (`ReplicationLink`). -/
structure ReplicationLink where
  tabletAlias : TabletAlias
  parent : TabletAlias
deriving DecidableEq

/-- The loop body of the update closure in `AddShardReplicationRecord`,
threading the `found` flag: the first link for `tabletAlias` has its
parent updated (or is dropped when `parent` is zero), duplicates are
dropped with a warning, and a fresh link is appended when none was found
and `parent` is non-zero. -/
def updateReplicationLinks (tabletAlias parent : TabletAlias) :
    List ReplicationLink → Bool → List ReplicationLink
  | [], found => if !found && !parent.isZero then [⟨tabletAlias, parent⟩] else []
  | link :: rest, found =>
    if link.tabletAlias = tabletAlias then
      if found then updateReplicationLinks tabletAlias parent rest true
      else if parent.isZero then updateReplicationLinks tabletAlias parent rest true
      else ⟨tabletAlias, parent⟩ :: updateReplicationLinks tabletAlias parent rest true
    else
      link :: updateReplicationLinks tabletAlias parent rest found

/-- The update applied to `ShardReplication.ReplicationLinks` by the
closure inside `AddShardReplicationRecord`. -/
def addShardReplicationUpdate (tabletAlias parent : TabletAlias)
    (links : List ReplicationLink) : List ReplicationLink :=
  updateReplicationLinks tabletAlias parent links false

-- Characterization of firstIdx as the leftmost occurrence.

theorem occursAt_cons_succ {pat : Str} {c : Char} {t : Str} {j : Nat} :
    occursAt pat (c :: t) (j + 1) ↔ occursAt pat t j := by
  simp [occursAt, List.drop_succ_cons]

theorem firstIdx_eq_some_iff (pat : Str) : ∀ (s : Str) (i : Nat),
    firstIdx pat s = some i ↔ (occursAt pat s i ∧ ∀ j, j < i → ¬ occursAt pat s j)
  | [], i => by
    unfold firstIdx
    split
    · rename_i hp
      constructor
      · intro h
        injection h with h
        subst h
        exact ⟨hp, fun j hj => absurd hj (Nat.not_lt_zero j)⟩
      · rintro ⟨-, hmin⟩
        cases i with
        | zero => rfl
        | succ i => exact absurd (show occursAt pat [] 0 from hp) (hmin 0 (Nat.succ_pos i))
    · rename_i hp
      constructor
      · intro h
        exact absurd h (by simp)
      · rintro ⟨hocc, -⟩
        refine absurd ?_ hp
        have : List.drop i ([] : Str) = [] := List.drop_nil
        rw [occursAt, this] at hocc
        exact hocc
  | c :: t, i => by
    unfold firstIdx
    split
    · rename_i hp
      constructor
      · intro h
        injection h with h
        subst h
        exact ⟨hp, fun j hj => absurd hj (Nat.not_lt_zero j)⟩
      · rintro ⟨-, hmin⟩
        cases i with
        | zero => rfl
        | succ i => exact absurd (show occursAt pat (c :: t) 0 from hp) (hmin 0 (Nat.succ_pos i))
    · rename_i hp
      constructor
      · intro h
        rcases hft : firstIdx pat t with - | i'
        · rw [hft] at h
          exact absurd h (by simp)
        · rw [hft] at h
          simp only [Option.map_some'] at h
          injection h with h
          subst h
          obtain ⟨hocc, hmin⟩ := (firstIdx_eq_some_iff pat t i').mp hft
          refine ⟨occursAt_cons_succ.mpr hocc, ?_⟩
          intro j hj
          cases j with
          | zero => exact fun hc => hp hc
          | succ j => exact fun hc => hmin j (by omega) (occursAt_cons_succ.mp hc)
      · rintro ⟨hocc, hmin⟩
        cases i with
        | zero => exact absurd hocc hp
        | succ i =>
          have : firstIdx pat t = some i :=
            (firstIdx_eq_some_iff pat t i).mpr
              ⟨occursAt_cons_succ.mp hocc,
               fun j hj hc => hmin (j + 1) (by omega) (occursAt_cons_succ.mpr hc)⟩
          rw [this]
          rfl

theorem firstIdx_eq_none_iff (pat : Str) : ∀ s : Str,
    firstIdx pat s = none ↔ ∀ i, ¬ occursAt pat s i
  | [] => by
    unfold firstIdx
    split
    · rename_i hp
      constructor
      · intro h
        exact absurd h (by simp)
      · intro h
        exact absurd (show occursAt pat [] 0 from hp) (h 0)
    · rename_i hp
      constructor
      · intro _ i hc
        refine hp ?_
        have : List.drop i ([] : Str) = [] := List.drop_nil
        rw [occursAt, this] at hc
        exact hc
      · intro _
        rfl
  | c :: t => by
    unfold firstIdx
    split
    · rename_i hp
      constructor
      · intro h
        exact absurd h (by simp)
      · intro h
        exact absurd (show occursAt pat (c :: t) 0 from hp) (h 0)
    · rename_i hp
      rw [Option.map_eq_none', firstIdx_eq_none_iff pat t]
      constructor
      · intro h i
        cases i with
        | zero => exact fun hc => hp hc
        | succ i => exact fun hc => h i (occursAt_cons_succ.mp hc)
      · intro h i hc
        exact h (i + 1) (occursAt_cons_succ.mpr hc)

theorem containsSub_iff (s pat : Str) : containsSub s pat = true ↔ ∃ i, occursAt pat s i := by
  unfold containsSub
  rcases h : firstIdx pat s with - | i
  · simp only [Option.isSome_none, Bool.false_eq_true, false_iff, not_exists]
    exact (firstIdx_eq_none_iff pat s).mp h
  · simp only [Option.isSome_some, true_iff]
    exact ⟨i, ((firstIdx_eq_some_iff pat s i).mp h).1⟩

-- Characterization of the splice index.

theorem minStep_le_firstIdx {sql kw : Str} {j : Nat}
    (h : firstIdx kw sql = some j) (hj : 0 < j) (idxExtra : Nat) :
    minStep sql kw idxExtra ≤ j := by
  unfold minStep
  rw [h]
  simp only
  split
  · exact Nat.le_refl _
  · rename_i hc
    rw [not_and_or] at hc
    rcases hc with hc | hc
    · exact absurd hj hc
    · omega

theorem spliceIdx_min (sql : Str) :
    ∀ kw ∈ spliceKws, ∀ j, firstIdx kw sql = some j → 0 < j → spliceIdx sql ≤ j := by
  intro kw hkw j hfi hj
  have hkw' : kw = kwGroupBy ∨ kw = kwOrderBy ∨ kw = kwLimit ∨ kw = kwForUpdate := by
    simpa [spliceKws] using hkw
  unfold spliceIdx
  rcases hkw' with rfl | rfl | rfl | rfl
  · exact le_trans (minStep_le _ _ _) <| le_trans (minStep_le _ _ _) <|
      le_trans (minStep_le _ _ _) (minStep_le_firstIdx hfi hj _)
  · exact le_trans (minStep_le _ _ _) <| le_trans (minStep_le _ _ _)
      (minStep_le_firstIdx hfi hj _)
  · exact le_trans (minStep_le _ _ _) (minStep_le_firstIdx hfi hj _)
  · exact minStep_le_firstIdx hfi hj _

theorem minStep_cases (sql kw : Str) (idxExtra : Nat) :
    minStep sql kw idxExtra = idxExtra ∨
      (0 < minStep sql kw idxExtra ∧ firstIdx kw sql = some (minStep sql kw idxExtra)) := by
  unfold minStep
  rcases h : firstIdx kw sql with - | i
  · exact Or.inl rfl
  · simp only
    split
    · rename_i hc
      exact Or.inr ⟨hc.1, rfl⟩
    · exact Or.inl rfl

theorem spliceIdx_cases (sql : Str) :
    spliceIdx sql = sql.length ∨
      ∃ kw ∈ spliceKws, 0 < spliceIdx sql ∧ firstIdx kw sql = some (spliceIdx sql) := by
  unfold spliceIdx
  rcases minStep_cases sql kwForUpdate (minStep sql kwLimit (minStep sql kwOrderBy (minStep sql kwGroupBy sql.length))) with h4 | h4
  · rw [h4]
    rcases minStep_cases sql kwLimit (minStep sql kwOrderBy (minStep sql kwGroupBy sql.length)) with h3 | h3
    · rw [h3]
      rcases minStep_cases sql kwOrderBy (minStep sql kwGroupBy sql.length) with h2 | h2
      · rw [h2]
        rcases minStep_cases sql kwGroupBy sql.length with h1 | h1
        · exact Or.inl h1
        · exact Or.inr ⟨kwGroupBy, by simp [spliceKws], h1⟩
      · exact Or.inr ⟨kwOrderBy, by simp [spliceKws], h2⟩
    · exact Or.inr ⟨kwLimit, by simp [spliceKws], h3⟩
  · exact Or.inr ⟨kwForUpdate, by simp [spliceKws], h4⟩

-- Decimal digits: the generated bind-variable names are injective in the index.

/-- Decimal parse, left inverse of `natDigits`. -/
def parseDigits (s : Str) : Nat := s.foldl (fun acc c => acc * 10 + (c.toNat - 48)) 0

theorem parseDigits_append (xs : Str) (c : Char) :
    parseDigits (xs ++ [c]) = parseDigits xs * 10 + (c.toNat - 48) := by
  unfold parseDigits
  rw [List.foldl_append]
  rfl

theorem digitChar_toNat {n : Nat} (h : n < 10) : (digitChar n).toNat - 48 = n := by
  interval_cases n <;> decide

theorem parseDigits_natDigitsAux : ∀ fuel n, n < fuel → parseDigits (natDigitsAux fuel n) = n := by
  intro fuel
  induction fuel with
  | zero => intro n h; omega
  | succ fuel ih =>
    intro n h
    unfold natDigitsAux
    split
    · rename_i h10
      show parseDigits ([] ++ [digitChar n]) = n
      rw [parseDigits_append]
      have : parseDigits [] = 0 := rfl
      rw [this, digitChar_toNat h10]
      omega
    · rename_i h10
      rw [parseDigits_append]
      have hdiv : n / 10 < fuel := by
        have := Nat.div_lt_self (show 0 < n by omega) (show 1 < 10 by omega)
        omega
      rw [ih (n / 10) hdiv, digitChar_toNat (Nat.mod_lt n (by omega))]
      have := Nat.div_add_mod n 10
      omega

theorem parseDigits_natDigits (n : Nat) : parseDigits (natDigits n) = n :=
  parseDigits_natDigitsAux (n + 1) n (Nat.lt_succ_self n)

theorem natDigits_inj {m n : Nat} (h : natDigits m = natDigits n) : m = n := by
  have hm := parseDigits_natDigits m
  have hn := parseDigits_natDigits n
  rw [h] at hm
  omega

theorem bvName_inj {col : Str} {i j : Nat} (h : bvName col i = bvName col j) : i = j := by
  unfold bvName at h
  have : natDigits i = natDigits j := by
    have := congrArg (List.drop col.length) h
    rwa [List.drop_left, List.drop_left] at this
  exact natDigits_inj this

-- Lookup behaviour of the per-shard bind-variable maps.

theorem addKidBindings_not_name (col : Str) :
    ∀ (kids : List Str) (m : Str → Option BindVal) (start : Nat) (k : Str),
      (∀ j, j < kids.length → k ≠ bvName col (start + j)) →
      addKidBindings col m start kids k = m k := by
  intro kids
  induction kids with
  | nil => intro m start k _; rfl
  | cons kid rest ih =>
    intro m start k hk
    show addKidBindings col (fnUpd m (bvName col start) (.kid kid)) (start + 1) rest k = m k
    rw [ih (fnUpd m (bvName col start) (.kid kid)) (start + 1) k
      (fun j hj => by
        have := hk (j + 1) (by simpa using Nat.succ_lt_succ hj)
        rwa [show start + (j + 1) = start + 1 + j by omega] at this)]
    unfold fnUpd
    rw [if_neg (by simpa using hk 0 (Nat.succ_pos _))]

theorem addKidBindings_name (col : Str) :
    ∀ (kids : List Str) (m : Str → Option BindVal) (start i : Nat) (h : i < kids.length),
      addKidBindings col m start kids (bvName col (start + i)) =
        some (.kid (kids.get ⟨i, h⟩)) := by
  intro kids
  induction kids with
  | nil => intro m start i h; exact absurd h (Nat.not_lt_zero i)
  | cons kid rest ih =>
    intro m start i h
    cases i with
    | zero =>
      show addKidBindings col (fnUpd m (bvName col start) (.kid kid)) (start + 1) rest
        (bvName col (start + 0)) = some (.kid kid)
      rw [addKidBindings_not_name col rest _ (start + 1) _
        (fun j _ hn => by
          have := bvName_inj hn
          omega)]
      unfold fnUpd
      rw [if_pos (by rw [Nat.add_zero])]
    | succ i =>
      show addKidBindings col (fnUpd m (bvName col start) (.kid kid)) (start + 1) rest
        (bvName col (start + (i + 1))) = _
      rw [show start + (i + 1) = start + 1 + i by omega]
      exact ih _ (start + 1) i (by simpa using Nat.lt_of_succ_lt_succ h)

-- Lookup behaviour of buildEntityIds.

theorem buildEntityIds_shards (qSql col : Str) (qBV : Str → Option BindVal) :
    ∀ shardMap : List (Str × List Str),
      (buildEntityIds shardMap qSql col qBV).1 = shardMap.map Prod.fst := by
  intro shardMap
  induction shardMap with
  | nil => rfl
  | cons p rest ih =>
    obtain ⟨shard, kids⟩ := p
    show shard :: (buildEntityIds rest qSql col qBV).1 = _
    rw [ih]
    rfl

theorem buildEntityIds_lookup (qSql col : Str) (qBV : Str → Option BindVal) :
    ∀ shardMap : List (Str × List Str), (shardMap.map Prod.fst).Nodup →
      ∀ shard kids, (shard, kids) ∈ shardMap →
        (buildEntityIds shardMap qSql col qBV).2.1 shard =
          some (insertSqlClause qSql (inClause col kids)) ∧
        (buildEntityIds shardMap qSql col qBV).2.2 shard =
          some (addKidBindings col qBV 0 kids) := by
  intro shardMap
  induction shardMap with
  | nil => intro _ shard kids h; exact absurd h (List.not_mem_nil _)
  | cons p rest ih =>
    obtain ⟨s0, k0⟩ := p
    intro hnd shard kids hmem
    have hnd' : (rest.map Prod.fst).Nodup := (List.nodup_cons.mp hnd).2
    have hs0 : s0 ∉ rest.map Prod.fst := (List.nodup_cons.mp hnd).1
    rcases List.mem_cons.mp hmem with heq | hmem'
    · injection heq with h1 h2
      subst h1
      subst h2
      constructor
      · show fnUpd (buildEntityIds rest qSql col qBV).2.1 shard
          (insertSqlClause qSql (inClause col kids)) shard = _
        unfold fnUpd
        rw [if_pos rfl]
      · show fnUpd (buildEntityIds rest qSql col qBV).2.2 shard
          (addKidBindings col qBV 0 kids) shard = _
        unfold fnUpd
        rw [if_pos rfl]
    · have hne : shard ≠ s0 := by
        intro he
        subst he
        exact hs0 (List.mem_map.mpr ⟨(shard, kids), hmem', rfl⟩)
      obtain ⟨ih1, ih2⟩ := ih hnd' shard kids hmem'
      constructor
      · show fnUpd (buildEntityIds rest qSql col qBV).2.1 s0 _ shard = _
        unfold fnUpd
        rw [if_neg hne]
        exact ih1
      · show fnUpd (buildEntityIds rest qSql col qBV).2.2 s0 _ shard = _
        unfold fnUpd
        rw [if_neg hne]
        exact ih2

-- Facts about the retry step.

theorem strsEquals_eq_false_of_not_perm {a b : List Str} (h : ¬ List.Perm a b) :
    StrsEquals a b = false := by
  rcases hv : StrsEquals a b with - | -
  · rfl
  · exact absurd ((strsEquals_eq_true_iff_perm a b).mp hv) h

theorem nextShards_perm (ns sh : List Str) : List.Perm (nextShards ns sh) ns := by
  unfold nextShards
  by_cases hl : ns.length = sh.length
  · have hst : strsEqualsSt ns sh = (eqElems (sortStrs ns) (sortStrs sh), sortStrs ns, sortStrs sh) := by
      unfold strsEqualsSt
      rw [if_neg (by omega)]
    rw [hst]
    by_cases hc : eqElems (sortStrs ns) (sortStrs sh) = true
    · simp only [hc, if_pos]
      have hlen : (sortStrs ns).length = (sortStrs sh).length := by
        rw [(sortStrs_perm ns).length_eq, (sortStrs_perm sh).length_eq]
        exact hl
      have heq : sortStrs ns = sortStrs sh := (eqElems_eq_true_iff _ _ hlen).mp hc
      rw [← heq]
      exact sortStrs_perm ns
    · rw [if_neg (by simpa using hc)]
      exact sortStrs_perm ns
  · have hst : strsEqualsSt ns sh = (false, ns, sh) := by
      unfold strsEqualsSt
      rw [if_pos (by omega)]
    rw [hst]
    simp only [Bool.false_eq_true, if_neg]
    exact List.Perm.refl ns

theorem nextShards_of_perm {ns sh : List Str} (h : List.Perm ns sh) :
    nextShards ns sh = sortStrs sh := by
  unfold nextShards
  have hl : ns.length = sh.length := h.length_eq
  have hst : strsEqualsSt ns sh = (eqElems (sortStrs ns) (sortStrs sh), sortStrs ns, sortStrs sh) := by
    unfold strsEqualsSt
    rw [if_neg (by omega)]
  have hc : eqElems (sortStrs ns) (sortStrs sh) = true := by
    rw [sortStrs_eq_of_perm h]
    exact eqElems_refl _
  rw [hst, hc, if_pos rfl]

theorem nextShards_of_false_of_length {ns sh : List Str}
    (hl : ns.length = sh.length) (hc : StrsEquals ns sh = false) :
    nextShards ns sh = sortStrs ns := by
  have hst : strsEqualsSt ns sh =
      (eqElems (sortStrs ns) (sortStrs sh), sortStrs ns, sortStrs sh) := by
    unfold strsEqualsSt
    rw [if_neg (by omega)]
  have hc' : (strsEqualsSt ns sh).1 = false := hc
  unfold nextShards
  rw [hc', if_neg (by simp), hst]

/-- Every iteration of the loop records its own dispatch at the head of the
trace. -/
theorem resolverLoop_trace_cons {R : Type} (env : RetryEnv R) (fuel round : Nat)
    (ks : Str) (sh : List Str) :
    ∃ res tr, resolverLoop env (fuel + 1) round ks sh = (res, (ks, sh) :: tr) := by
  rcases hd : env.dispatch round ks sh with e | r
  case ok => exact ⟨some (.ok r), [], by simp only [resolverLoop, hd]⟩
  cases e with
  | generic msg => exact ⟨some (.error (.generic msg)), [], by simp only [resolverLoop, hd]⟩
  | shardConnErr code msg =>
    cases code with
    | ok => exact ⟨some (.error (.shardConnErr .ok msg)), [], by simp only [resolverLoop, hd]⟩
    | fatal =>
      exact ⟨some (.error (.shardConnErr .fatal msg)), [], by simp only [resolverLoop, hd]⟩
    | txPoolFull =>
      exact ⟨some (.error (.shardConnErr .txPoolFull msg)), [], by simp only [resolverLoop, hd]⟩
    | notServing =>
      exact ⟨some (.error (.shardConnErr .notServing msg)), [], by simp only [resolverLoop, hd]⟩
    | retry =>
      rcases hm : env.mapToShards (round + 1) (retryResolve env round ks) with e2 | ns
      · exact ⟨some (.error e2), [], by simp only [resolverLoop, hd, hm]⟩
      · rcases hcond : (decide (retryResolve env round ks ≠ ks) || !StrsEquals ns sh) with - | -
        · refine ⟨some (.error (.shardConnErr .retry msg)), [], ?_⟩
          simp only [resolverLoop, hd, hm, hcond]
          simp
        · refine ⟨(resolverLoop env fuel (round + 1) (retryResolve env round ks)
              (nextShards ns sh)).1,
            (resolverLoop env fuel (round + 1) (retryResolve env round ks)
              (nextShards ns sh)).2, ?_⟩
          simp only [resolverLoop, hd, hm, hcond]
          simp

/-- An error can only have come from a ScatterConn dispatch or from the
shard-resolution callback, never from `getKeyspaceAlias`. -/
def retryEnvErr {R : Type} (env : RetryEnv R) (e : VtError) : Prop :=
  (∃ n ks sh, env.dispatch n ks sh = .error e) ∨ ∃ n ks, env.mapToShards n ks = .error e

theorem resolverLoop_error_origin {R : Type} (env : RetryEnv R) :
    ∀ fuel round ks sh e, (resolverLoop env fuel round ks sh).1 = some (.error e) →
      retryEnvErr env e := by
  intro fuel
  induction fuel with
  | zero =>
    intro round ks sh e h
    simp [resolverLoop] at h
  | succ fuel ih =>
    intro round ks sh e h
    rcases hd : env.dispatch round ks sh with e' | r
    case ok => simp [resolverLoop, hd] at h
    cases e' with
    | generic msg =>
      simp only [resolverLoop, hd, Option.some.injEq, Except.error.injEq] at h
      exact Or.inl ⟨round, ks, sh, h ▸ hd⟩
    | shardConnErr code msg =>
      cases code with
      | retry =>
        simp only [resolverLoop, hd] at h
        rcases hm : env.mapToShards (round + 1) (retryResolve env round ks) with e2 | ns
        · rw [hm] at h
          simp only [Option.some.injEq, Except.error.injEq] at h
          exact Or.inr ⟨round + 1, retryResolve env round ks, h ▸ hm⟩
        · simp only [hm] at h
          split at h
          · exact ih (round + 1) _ _ e h
          · simp only [Option.some.injEq, Except.error.injEq] at h
            exact Or.inl ⟨round, ks, sh, by rw [hd, h]⟩
      | ok =>
        simp only [resolverLoop, hd, Option.some.injEq, Except.error.injEq] at h
        exact Or.inl ⟨round, ks, sh, h ▸ hd⟩
      | fatal =>
        simp only [resolverLoop, hd, Option.some.injEq, Except.error.injEq] at h
        exact Or.inl ⟨round, ks, sh, h ▸ hd⟩
      | txPoolFull =>
        simp only [resolverLoop, hd, Option.some.injEq, Except.error.injEq] at h
        exact Or.inl ⟨round, ks, sh, h ▸ hd⟩
      | notServing =>
        simp only [resolverLoop, hd, Option.some.injEq, Except.error.injEq] at h
        exact Or.inl ⟨round, ks, sh, h ▸ hd⟩

def entityEnvErr (env : EntityEnv) (e : VtError) : Prop :=
  (∃ n sh sq bv ks, env.dispatch n sh sq bv ks = .error e) ∨
    ∃ n ks, env.mapEntityIds n ks = .error e

theorem resolverEntityLoop_error_origin (env : EntityEnv) (qSql col : Str)
    (qBV : Str → Option BindVal) :
    ∀ fuel round ks shards sqls bindVars e,
      resolverEntityLoop env qSql col qBV fuel round ks shards sqls bindVars =
        some (.error e) →
      entityEnvErr env e := by
  intro fuel
  induction fuel with
  | zero =>
    intro round ks shards sqls bindVars e h
    simp [resolverEntityLoop] at h
  | succ fuel ih =>
    intro round ks shards sqls bindVars e h
    rcases hd : env.dispatch round shards sqls bindVars ks with e' | r
    case ok => simp [resolverEntityLoop, hd] at h
    cases e' with
    | generic msg =>
      simp only [resolverEntityLoop, hd, Option.some.injEq, Except.error.injEq] at h
      exact Or.inl ⟨round, shards, sqls, bindVars, ks, by rw [hd, h]⟩
    | shardConnErr code msg =>
      cases code with
      | retry =>
        simp only [resolverEntityLoop, hd] at h
        rcases hm : env.mapEntityIds (round + 1) (entityRetryResolve env round ks) with e2 | sm
        · simp only [hm, Option.some.injEq, Except.error.injEq] at h
          exact Or.inr ⟨round + 1, entityRetryResolve env round ks, by rw [hm, h]⟩
        · simp only [hm] at h
          split at h
          · exact ih (round + 1) _ _ _ _ e h
          · simp only [Option.some.injEq, Except.error.injEq] at h
            exact Or.inl ⟨round, shards, sqls, bindVars, ks, by rw [hd, h]⟩
      | ok =>
        simp only [resolverEntityLoop, hd, Option.some.injEq, Except.error.injEq] at h
        exact Or.inl ⟨round, shards, sqls, bindVars, ks, by rw [hd, h]⟩
      | fatal =>
        simp only [resolverEntityLoop, hd, Option.some.injEq, Except.error.injEq] at h
        exact Or.inl ⟨round, shards, sqls, bindVars, ks, by rw [hd, h]⟩
      | txPoolFull =>
        simp only [resolverEntityLoop, hd, Option.some.injEq, Except.error.injEq] at h
        exact Or.inl ⟨round, shards, sqls, bindVars, ks, by rw [hd, h]⟩
      | notServing =>
        simp only [resolverEntityLoop, hd, Option.some.injEq, Except.error.injEq] at h
        exact Or.inl ⟨round, shards, sqls, bindVars, ks, by rw [hd, h]⟩

-- Behaviour of the replication-link update.

theorem updateReplicationLinks_found_true (ta p : TabletAlias) :
    ∀ links : List ReplicationLink,
      updateReplicationLinks ta p links true =
        links.filter (fun l => !decide (l.tabletAlias = ta)) := by
  intro links
  induction links with
  | nil => simp [updateReplicationLinks]
  | cons l rest ih =>
    by_cases hl : l.tabletAlias = ta
    · simp [updateReplicationLinks, hl, ih]
    · simp [updateReplicationLinks, hl, ih]

theorem updateReplicationLinks_zero (ta p : TabletAlias) (hz : p.isZero = true) :
    ∀ (links : List ReplicationLink) (found : Bool),
      updateReplicationLinks ta p links found =
        links.filter (fun l => !decide (l.tabletAlias = ta)) := by
  intro links
  induction links with
  | nil => intro found; simp [updateReplicationLinks, hz]
  | cons l rest ih =>
    intro found
    by_cases hl : l.tabletAlias = ta
    · cases found <;> simp [updateReplicationLinks, hl, hz, ih]
    · cases found <;> simp [updateReplicationLinks, hl, hz, ih]

theorem filter_match_of_filter_not (ta : TabletAlias) (l : List ReplicationLink) :
    (l.filter (fun x => !decide (x.tabletAlias = ta))).filter
      (fun x => decide (x.tabletAlias = ta)) = [] := by
  induction l with
  | nil => rfl
  | cons a rest ih => by_cases h : a.tabletAlias = ta <;> simp [h, ih]

theorem filter_not_match_idem (ta : TabletAlias) (l : List ReplicationLink) :
    (l.filter (fun x => !decide (x.tabletAlias = ta))).filter
      (fun x => !decide (x.tabletAlias = ta)) =
      l.filter (fun x => !decide (x.tabletAlias = ta)) := by
  induction l with
  | nil => rfl
  | cons a rest ih => by_cases h : a.tabletAlias = ta <;> simp [h, ih]

theorem updateReplicationLinks_nonzero_match (ta p : TabletAlias) (hz : p.isZero = false) :
    ∀ links : List ReplicationLink,
      (updateReplicationLinks ta p links false).filter
        (fun l => decide (l.tabletAlias = ta)) = [⟨ta, p⟩] := by
  intro links
  induction links with
  | nil => simp [updateReplicationLinks, hz]
  | cons l rest ih =>
    by_cases hl : l.tabletAlias = ta
    · simp [updateReplicationLinks, hl, hz, updateReplicationLinks_found_true,
        filter_match_of_filter_not]
    · simp [updateReplicationLinks, hl, ih]

theorem updateReplicationLinks_nonzero_others (ta p : TabletAlias) (hz : p.isZero = false) :
    ∀ links : List ReplicationLink,
      (updateReplicationLinks ta p links false).filter
        (fun l => !decide (l.tabletAlias = ta)) =
        links.filter (fun l => !decide (l.tabletAlias = ta)) := by
  intro links
  induction links with
  | nil => simp [updateReplicationLinks, hz]
  | cons l rest ih =>
    by_cases hl : l.tabletAlias = ta
    · simp [updateReplicationLinks, hl, hz, updateReplicationLinks_found_true,
        filter_not_match_idem]
    · simp [updateReplicationLinks, hl, ih]

theorem resolverLoop_retry_step {R : Type} (env : RetryEnv R) (fuel round : Nat)
    (ks ksA : Str) (sh ns : List Str) (msg : Str)
    (h1 : env.dispatch round ks sh = .error (.shardConnErr .retry msg))
    (hra : retryResolve env round ks = ksA)
    (h3 : env.mapToShards (round + 1) ksA = .ok ns)
    (hcond : (decide (ksA ≠ ks) || !StrsEquals ns sh) = true) :
    resolverLoop env (fuel + 1) round ks sh =
      ((resolverLoop env fuel (round + 1) ksA (nextShards ns sh)).1,
       (ks, sh) :: (resolverLoop env fuel (round + 1) ksA (nextShards ns sh)).2) := by
  simp only [resolverLoop, h1, hra, h3]
  rw [if_pos hcond]

-- ===================================================================
-- Claim theorems
-- ===================================================================

/-- C6: `StrsEquals(A, B)` returns true iff `A` and `B` contain the same
multiset of strings. -/
theorem strsEquals_iff_multiset_eq (a b : List Str) :
    StrsEquals a b = true ↔ (a : Multiset Str) = (b : Multiset Str) := by
  rw [Multiset.coe_eq_coe]
  exact strsEquals_eq_true_iff_perm a b

/-- C1: when a dispatch returns a RETRY ShardConnError, the keyspace alias
comes back equal to the current keyspace, and the re-resolved shard list
equals the current one as a multiset, the loop performs no further
dispatch (the trace is the single dispatch) and returns that RETRY error. -/
theorem execute_retry_no_topology_change_surfaces_error
    (env : RetryEnv QueryResult) (fuel : Nat) (ks : Str)
    (shards0 ns : List Str) (msg : Str)
    (h0 : env.mapToShards 0 ks = .ok shards0)
    (h1 : env.dispatch 0 ks shards0 = .error (.shardConnErr .retry msg))
    (h2 : env.keyspaceAlias 0 ks = .ok ks)
    (h3 : env.mapToShards 1 ks = .ok ns)
    (h4 : (ns : Multiset Str) = (shards0 : Multiset Str)) :
    ResolverExecute env (fuel + 1) ks =
      (some (.error (.shardConnErr .retry msg)), [(ks, shards0)]) := by
  have hperm : List.Perm ns shards0 := Multiset.coe_eq_coe.mp h4
  have hra : retryResolve env 0 ks = ks := by unfold retryResolve; rw [h2]
  have hcmp : StrsEquals ns shards0 = true := (strsEquals_eq_true_iff_perm _ _).mpr hperm
  unfold ResolverExecute
  simp only [h0]
  simp [resolverLoop, h1, hra, h3, hcmp]

def wEnvC1 : RetryEnv QueryResult where
  dispatch := fun n _ _ =>
    if n = 0 then .error (.shardConnErr .retry "m".toList) else .ok ⟨7⟩
  keyspaceAlias := fun _ ks => .ok ks
  mapToShards := fun _ _ => .ok ["0".toList]

theorem execute_retry_no_topology_change_surfaces_error_witness :
    ResolverExecute wEnvC1 1 "user".toList =
      (some (.error (.shardConnErr .retry "m".toList)), [("user".toList, ["0".toList])]) :=
  execute_retry_no_topology_change_surfaces_error wEnvC1 0 "user".toList
    ["0".toList] ["0".toList] "m".toList rfl rfl rfl rfl rfl

/-- C2: when the first dispatch returns RETRY and either the keyspace alias
changed or the re-resolved shard list differs as a multiset, the loop
dispatches a second time with the updated keyspace and the updated shard
list (up to the in-place sort performed by the comparison); if that second
dispatch succeeds, its result is returned after exactly two dispatches. -/
theorem execute_retry_resharded_retries_once_and_succeeds
    (env : RetryEnv QueryResult) (fuel : Nat) (ks ks1 : Str)
    (shards0 ns : List Str) (msg : Str) (qr : QueryResult)
    (h0 : env.mapToShards 0 ks = .ok shards0)
    (h1 : env.dispatch 0 ks shards0 = .error (.shardConnErr .retry msg))
    (h2 : env.keyspaceAlias 0 ks = .ok ks1)
    (h3 : env.mapToShards 1 ks1 = .ok ns)
    (hch : ks1 ≠ ks ∨ (ns : Multiset Str) ≠ (shards0 : Multiset Str))
    (h4 : env.dispatch 1 ks1 (nextShards ns shards0) = .ok qr) :
    ResolverExecute env (fuel + 2) ks =
      (some (.ok qr), [(ks, shards0), (ks1, nextShards ns shards0)]) ∧
    List.Perm (nextShards ns shards0) ns := by
  refine ⟨?_, nextShards_perm ns shards0⟩
  have hra : retryResolve env 0 ks = ks1 := by unfold retryResolve; rw [h2]
  unfold ResolverExecute
  simp only [h0]
  rw [show fuel + 2 = (fuel + 1) + 1 from rfl]
  simp [resolverLoop, h1, hra, h3, h4]
  intro he
  rcases hch with h | h
  · exact absurd he h
  · exact strsEquals_eq_false_of_not_perm (fun hp => h (Multiset.coe_eq_coe.mpr hp))

def wEnvC2 : RetryEnv QueryResult where
  dispatch := fun n _ _ =>
    if n = 0 then .error (.shardConnErr .retry "m".toList) else .ok ⟨7⟩
  keyspaceAlias := fun _ ks => .ok ks
  mapToShards := fun n _ =>
    if n = 0 then .ok ["0".toList] else .ok ["-80".toList, "80-".toList]

theorem execute_retry_resharded_retries_once_and_succeeds_witness :
    ResolverExecute wEnvC2 2 "user".toList =
      (some (.ok ⟨7⟩), [("user".toList, ["0".toList]),
        ("user".toList, nextShards ["-80".toList, "80-".toList] ["0".toList])]) ∧
    List.Perm (nextShards ["-80".toList, "80-".toList] ["0".toList])
      ["-80".toList, "80-".toList] :=
  execute_retry_resharded_retries_once_and_succeeds wEnvC2 0 "user".toList "user".toList
    ["0".toList] ["-80".toList, "80-".toList] "m".toList ⟨7⟩
    rfl rfl rfl rfl (Or.inr (by decide)) rfl

/-- C3 (amended): StreamExecute resolves, and when the resolution yields
more than one shard it returns the error `Resolved to more than one shard`
(capital R in the source) without any ScatterConn.StreamExecute call; with
exactly one shard it calls ScatterConn.StreamExecute exactly once and
enters no retry loop. -/
theorem streamExecute_single_shard_no_retry (env : StreamEnv) (ks : Str)
    (shards : List Str) (h : env.mapToShards ks = .ok shards) :
    (1 < shards.length →
      ResolverStreamExecute env ks =
        (.error (.generic "Resolved to more than one shard".toList), [])) ∧
    (shards.length = 1 →
      ResolverStreamExecute env ks = (env.streamDispatch ks shards, [(ks, shards)])) := by
  unfold ResolverStreamExecute
  simp only [h]
  constructor
  · intro h1
    rw [if_pos (by omega)]
  · intro h1
    rw [if_neg (by omega)]

def wEnvC3 : StreamEnv where
  mapToShards := fun _ => .ok ["-80".toList]
  streamDispatch := fun _ _ => .ok ()

theorem streamExecute_single_shard_no_retry_witness :
    ResolverStreamExecute wEnvC3 "user".toList =
      (wEnvC3.streamDispatch "user".toList ["-80".toList],
        [("user".toList, ["-80".toList])]) :=
  (streamExecute_single_shard_no_retry wEnvC3 "user".toList ["-80".toList] rfl).2 rfl

def cEnvC3 : StreamEnv where
  mapToShards := fun _ => .ok ["-80".toList, "80-".toList]
  streamDispatch := fun _ _ => .ok ()

/-- C3 counterexample: on a two-shard resolution the call returns the
error message `Resolved to more than one shard` (and performs no stream
dispatch), which is not the lower-case message quoted by the claim. -/
theorem streamExecute_error_message_counterexample :
    ResolverStreamExecute cEnvC3 "user".toList =
      (.error (.generic "Resolved to more than one shard".toList), []) ∧
    VtError.generic "Resolved to more than one shard".toList ≠
      VtError.generic "resolved to more than one shard".toList := by
  decide

/-- C4 (amended): the splice of `insertSqlClause` is
`sql[:idx] ++ pfx ++ clause ++ sql[idx:]`, where `idx` is the minimum of
the *strictly positive* first occurrences of the four keywords in the
lower-cased SQL (defaulting to end-of-string; a keyword whose first
occurrence is at index 0 is ignored entirely), `firstIdx` is the leftmost
occurrence, and the prefix is `" and "` exactly when the lower-cased SQL
contains `"where"`; on the claim's concrete input the claimed output is
produced. -/
theorem insertSqlClause_splice_spec (querySql clause : Str) :
    (insertSqlClause querySql clause =
      querySql.take (spliceIdx (lowerStr querySql))
        ++ clausePfx (lowerStr querySql)
        ++ clause
        ++ querySql.drop (spliceIdx (lowerStr querySql))) ∧
    (∀ kw ∈ spliceKws, ∀ j, firstIdx kw (lowerStr querySql) = some j → 0 < j →
      spliceIdx (lowerStr querySql) ≤ j) ∧
    (spliceIdx (lowerStr querySql) = (lowerStr querySql).length ∨
      ∃ kw ∈ spliceKws, 0 < spliceIdx (lowerStr querySql) ∧
        firstIdx kw (lowerStr querySql) = some (spliceIdx (lowerStr querySql))) ∧
    ((∃ i, occursAt "where".toList (lowerStr querySql) i) →
      clausePfx (lowerStr querySql) = " and ".toList) ∧
    (¬ (∃ i, occursAt "where".toList (lowerStr querySql) i) →
      clausePfx (lowerStr querySql) = " where ".toList) ∧
    (∀ pat s : Str, ∀ i, firstIdx pat s = some i ↔
      (occursAt pat s i ∧ ∀ j, j < i → ¬ occursAt pat s j)) ∧
    (insertSqlClause "SELECT * FROM t WHERE a=1 ORDER BY b LIMIT 10".toList
        "id in (:e0,:e1)".toList =
      "SELECT * FROM t WHERE a=1 and id in (:e0,:e1) ORDER BY b LIMIT 10".toList) := by
  refine ⟨insertSqlClause_form querySql clause, spliceIdx_min _, spliceIdx_cases _,
    ?_, ?_, firstIdx_eq_some_iff, by decide⟩
  · intro h
    unfold clausePfx
    rw [if_pos ((containsSub_iff _ _).mpr h)]
  · intro h
    unfold clausePfx
    rw [if_neg (fun hc => h ((containsSub_iff _ _).mp hc))]

theorem insertSqlClause_splice_spec_witness :
    spliceIdx (lowerStr "a limit".toList) ≤ 1 :=
  (insertSqlClause_splice_spec "a limit".toList "x".toList).2.1 kwLimit
    (by simp [spliceKws]) 1 (by decide) (by decide)

/-- C4 counterexample: on SQL `" limit 5"` the leftmost occurrence of
`" limit"` is at index 0; the claim's splice index (the minimum over all
leftmost occurrences) would be 0 and would produce `" where x limit 5"`,
but the code ignores occurrences at index 0 and returns
`" limit 5 where x"`. -/
theorem insertSqlClause_index_zero_counterexample :
    insertSqlClause " limit 5".toList "x".toList = " limit 5 where x".toList ∧
    firstIdx kwLimit (lowerStr " limit 5".toList) = some 0 ∧
    (" limit 5".toList.take 0 ++ " where ".toList ++ "x".toList ++
      " limit 5".toList.drop 0 = " where x limit 5".toList) ∧
    " limit 5 where x".toList ≠ " where x limit 5".toList := by
  decide

theorem take_append_of_le {α : Type} (A B : List α) (n : Nat) (h : A.length ≤ n) :
    (A ++ B).take n = A ++ B.take (n - A.length) := by
  rw [List.take_append_eq_append_take, List.take_of_length_le h]

/-- C5 (amended): inserting `c1` and then `c2` yields a string containing
`c1` and, after it, `c2`, provided the second splice index does not fall
before the end of the first inserted clause (in particular whenever
inserting `c1` creates no new keyword occurrence before that point). The
unconditional claim fails: a clause containing a splice keyword is split
by the second insertion (see the counterexample), so neither the
exactly-once count nor the ordering holds for all inputs. -/
theorem insertSqlClause_twice_ordered (q c1 c2 : Str)
    (h : spliceIdx (lowerStr q) + (clausePfx (lowerStr q)).length + c1.length ≤
      spliceIdx (lowerStr (insertSqlClause q c1))) :
    ∃ u v w, insertSqlClause (insertSqlClause q c1) c2 = u ++ c1 ++ v ++ c2 ++ w := by
  set i := spliceIdx (lowerStr q) with hi
  set p1 := clausePfx (lowerStr q) with hp1
  set s1 := insertSqlClause q c1 with hs1
  set j := spliceIdx (lowerStr s1) with hj
  set p2 := clausePfx (lowerStr s1) with hp2
  have hiq : i ≤ q.length := by
    have h1 := spliceIdx_le_length (lowerStr q)
    have h2 := lowerStr_length q
    rw [hi]
    omega
  have hlt : (q.take i).length = i := by rw [List.length_take]; omega
  have hform1 : s1 = q.take i ++ p1 ++ c1 ++ q.drop i := insertSqlClause_form q c1
  have hform2 : insertSqlClause s1 c2 = s1.take j ++ p2 ++ c2 ++ s1.drop j :=
    insertSqlClause_form s1 c2
  have hA : ((q.take i ++ p1) ++ c1).length = i + p1.length + c1.length := by
    simp only [List.length_append, hlt]
  have htake : s1.take j =
      ((q.take i ++ p1) ++ c1) ++ (q.drop i).take (j - (i + p1.length + c1.length)) := by
    conv =>
      lhs
      rw [hform1]
    rw [show q.take i ++ p1 ++ c1 ++ q.drop i = ((q.take i ++ p1) ++ c1) ++ q.drop i from rfl]
    rw [take_append_of_le _ _ j (by rw [hA]; omega), hA]
  refine ⟨q.take i ++ p1,
    (q.drop i).take (j - (i + p1.length + c1.length)) ++ p2, s1.drop j, ?_⟩
  rw [hform2, htake]
  simp [List.append_assoc]

theorem insertSqlClause_twice_ordered_witness :
    ∃ u v w, insertSqlClause (insertSqlClause "select id from t".toList "a=1".toList)
      "b=2".toList = u ++ "a=1".toList ++ v ++ "b=2".toList ++ w :=
  insertSqlClause_twice_ordered "select id from t".toList "a=1".toList "b=2".toList
    (by decide)

/-- C5 counterexample: with `q = "select a from t"`, `c1 = "x order by y"`,
`c2 = "z"`, the double insertion yields
`"select a from t where x and z order by y"`: `c1` occurs zero times (not
exactly once), so `c2` cannot appear after an occurrence of `c1`. -/
theorem insertSqlClause_twice_counterexample :
    insertSqlClause (insertSqlClause "select a from t".toList "x order by y".toList)
      "z".toList = "select a from t where x and z order by y".toList ∧
    countSub "x order by y".toList
      "select a from t where x and z order by y".toList = 0 ∧
    countSub "z".toList "select a from t where x and z order by y".toList = 1 := by
  decide

/-- C7 (amended): for every shard of the map, `buildEntityIds` produces the
SQL spliced with the IN clause over the generated names and a bind map that
keeps every original binding and binds `col ++ i` to the i-th keyspace id
(which re-groups to the input map), provided no original binding collides
with a generated name; the shard list is the map's key list. -/
theorem buildEntityIds_per_shard_spec
    (shardMap : List (Str × List Str)) (qSql col : Str) (qBV : Str → Option BindVal)
    (hnd : (shardMap.map Prod.fst).Nodup) :
    (buildEntityIds shardMap qSql col qBV).1 = shardMap.map Prod.fst ∧
    ∀ shard kids, (shard, kids) ∈ shardMap →
      (∀ i, i < kids.length → qBV (bvName col i) = none) →
      (buildEntityIds shardMap qSql col qBV).2.1 shard =
        some (insertSqlClause qSql (inClause col kids)) ∧
      ∃ m, (buildEntityIds shardMap qSql col qBV).2.2 shard = some m ∧
        (∀ k v, qBV k = some v → m k = some v) ∧
        (∀ i, ∀ hlt : i < kids.length,
          m (bvName col i) = some (.kid (kids.get ⟨i, hlt⟩))) := by
  refine ⟨buildEntityIds_shards qSql col qBV shardMap, ?_⟩
  intro shard kids hmem hnc
  obtain ⟨hsql, hbv⟩ := buildEntityIds_lookup qSql col qBV shardMap hnd shard kids hmem
  refine ⟨hsql, addKidBindings col qBV 0 kids, hbv, ?_, ?_⟩
  · intro k v hk
    by_cases hex : ∃ i, i < kids.length ∧ k = bvName col i
    · obtain ⟨i, hlt, rfl⟩ := hex
      rw [hnc i hlt] at hk
      cases hk
    · push_neg at hex
      rw [addKidBindings_not_name col kids qBV 0 k
        (fun j hj => by simpa using hex j hj)]
      exact hk
  · intro i hlt
    have hn := addKidBindings_name col kids qBV 0 i hlt
    simpa using hn

theorem buildEntityIds_per_shard_spec_witness :
    (buildEntityIds [("0".toList, ["k1".toList, "k2".toList])] "select".toList
        "id".toList (fun _ => none)).2.1 "0".toList =
      some (insertSqlClause "select".toList
        (inClause "id".toList ["k1".toList, "k2".toList])) ∧
    ∃ m, (buildEntityIds [("0".toList, ["k1".toList, "k2".toList])] "select".toList
        "id".toList (fun _ => none)).2.2 "0".toList = some m ∧
      (∀ k v, (fun _ => none : Str → Option BindVal) k = some v → m k = some v) ∧
      (∀ i, ∀ hlt : i < (["k1".toList, "k2".toList] : List Str).length,
        m (bvName "id".toList i) =
          some (.kid ((["k1".toList, "k2".toList] : List Str).get ⟨i, hlt⟩))) :=
  (buildEntityIds_per_shard_spec [("0".toList, ["k1".toList, "k2".toList])]
    "select".toList "id".toList (fun _ => none) (by decide)).2
    "0".toList ["k1".toList, "k2".toList] (by simp) (fun _ _ => rfl)

/-- C7 counterexample: when an original bind variable is named like a
generated name (`id0` here), the produced bind map overwrites it, so it
does not contain every original binding. -/
theorem buildEntityIds_collision_counterexample :
    ∃ m, (buildEntityIds [("0".toList, ["k".toList])] "select".toList "id".toList
        (fun k => if k = "id0".toList then some (.other 5) else none)).2.2
        "0".toList = some m ∧
      m "id0".toList = some (.kid "k".toList) ∧
      (fun k => if k = "id0".toList then some (.other 5) else none : Str → Option BindVal)
        "id0".toList = some (.other 5) ∧
      some (BindVal.kid "k".toList) ≠ some (BindVal.other 5) := by
  refine ⟨addKidBindings "id".toList
    (fun k => if k = "id0".toList then some (.other 5) else none) 0 ["k".toList], ?_, ?_, ?_, ?_⟩
  · rfl
  · decide
  · decide
  · decide

/-- C8 (amended): `StrsEquals` sorts both equal-length slices in place
(both after-states are sorted ascending); consequently, after a retry
comparison in which the re-resolved list has the *same length* as the
current one (and differs), the next dispatch uses the sorted list. When
the lengths differ, `StrsEquals` returns before sorting and the next
dispatch uses the re-resolved list exactly as returned (see the
counterexample). -/
theorem strsEquals_sorts_in_place_spec :
    (∀ a b : List Str, a.length = b.length →
      List.Sorted strLe (strsEqualsSt a b).2.1 ∧
      List.Sorted strLe (strsEqualsSt a b).2.2) ∧
    (∀ (env : RetryEnv QueryResult) (fuel : Nat) (ks : Str)
      (shards0 ns : List Str) (msg : Str),
      env.mapToShards 0 ks = .ok shards0 →
      env.dispatch 0 ks shards0 = .error (.shardConnErr .retry msg) →
      env.keyspaceAlias 0 ks = .ok ks →
      env.mapToShards 1 ks = .ok ns →
      ns.length = shards0.length →
      StrsEquals ns shards0 = false →
      (∃ res tr, ResolverExecute env (fuel + 2) ks =
        (res, (ks, shards0) :: (ks, sortStrs ns) :: tr)) ∧
      List.Sorted strLe (sortStrs ns)) := by
  constructor
  · intro a b hl
    have hst : strsEqualsSt a b = (eqElems (sortStrs a) (sortStrs b), sortStrs a, sortStrs b) := by
      unfold strsEqualsSt
      rw [if_neg (by omega)]
    rw [hst]
    exact ⟨sortStrs_sorted a, sortStrs_sorted b⟩
  · intro env fuel ks shards0 ns msg h0 h1 h2 h3 hlen hne
    have hra : retryResolve env 0 ks = ks := by unfold retryResolve; rw [h2]
    have hns : nextShards ns shards0 = sortStrs ns := nextShards_of_false_of_length hlen hne
    obtain ⟨res, tr, heq⟩ := resolverLoop_trace_cons env fuel 1 ks (sortStrs ns)
    refine ⟨⟨res, tr, ?_⟩, sortStrs_sorted ns⟩
    unfold ResolverExecute
    simp only [h0]
    rw [show fuel + 2 = (fuel + 1) + 1 from rfl]
    rw [resolverLoop_retry_step env (fuel + 1) 0 ks ks shards0 ns msg h1 hra h3
      (by simp [hne])]
    rw [hns, heq]

def wEnvC8 : RetryEnv QueryResult where
  dispatch := fun n _ _ =>
    if n = 0 then .error (.shardConnErr .retry "m".toList) else .ok ⟨1⟩
  keyspaceAlias := fun _ ks => .ok ks
  mapToShards := fun n _ =>
    if n = 0 then .ok ["b".toList, "a".toList] else .ok ["c".toList, "a".toList]

theorem strsEquals_sorts_in_place_spec_witness :
    (∃ res tr, ResolverExecute wEnvC8 2 "u".toList =
      (res, ("u".toList, ["b".toList, "a".toList]) ::
        ("u".toList, sortStrs ["c".toList, "a".toList]) :: tr)) ∧
    List.Sorted strLe (sortStrs ["c".toList, "a".toList]) :=
  strsEquals_sorts_in_place_spec.2 wEnvC8 0 "u".toList
    ["b".toList, "a".toList] ["c".toList, "a".toList] "m".toList
    rfl rfl rfl rfl (by decide) (by decide)

def cEnvC8 : RetryEnv QueryResult where
  dispatch := fun n _ _ =>
    if n = 0 then .error (.shardConnErr .retry "m".toList) else .ok ⟨1⟩
  keyspaceAlias := fun _ ks => .ok ks
  mapToShards := fun n _ =>
    if n = 0 then .ok ["x".toList] else .ok ["b".toList, "a".toList]

/-- C8 counterexample: when the re-resolved list (`["b","a"]`) has a
different length than the current one (`["x"]`), `StrsEquals` returns
false before sorting, and the subsequent dispatch uses `["b","a"]`
unsorted — contradicting the claim's consequence that the dispatched
shard list is always sorted after the comparison. -/
theorem strsEquals_sorts_dispatch_unsorted_counterexample :
    ResolverExecute cEnvC8 2 "u".toList =
      (some (.ok ⟨1⟩), [("u".toList, ["x".toList]),
        ("u".toList, ["b".toList, "a".toList])]) ∧
    ¬ List.Sorted strLe ["b".toList, "a".toList] := by
  decide

/-- C9: in the retry loops of Execute, ExecuteBatch and ExecuteEntityIds,
an error returned by `getKeyspaceAlias` after a RETRY is never surfaced:
every returned error originates from a dispatch call or from the
shard-resolution (entity-map) callback. -/
theorem retry_loop_alias_errors_swallowed :
    (∀ (env : RetryEnv QueryResult) (fuel : Nat) (ks : Str) (e : VtError),
      (ResolverExecute env fuel ks).1 = some (.error e) → retryEnvErr env e) ∧
    (∀ (env : RetryEnv (List QueryResult)) (fuel : Nat) (ks : Str) (e : VtError),
      (ResolverExecuteBatch env fuel ks).1 = some (.error e) → retryEnvErr env e) ∧
    (∀ (env : EntityEnv) (qSql col : Str) (qBV : Str → Option BindVal)
      (fuel : Nat) (ks : Str) (e : VtError),
      ResolverExecuteEntityIds env qSql col qBV fuel ks = some (.error e) →
        entityEnvErr env e) ∧
    (∀ (env : RetryEnv QueryResult) (n : Nat) (ks : Str) (e : VtError),
      env.keyspaceAlias n ks = .error e → retryResolve env n ks = ks) ∧
    (∀ (env : EntityEnv) (n : Nat) (ks : Str) (e : VtError),
      env.keyspaceAlias n ks = .error e → entityRetryResolve env n ks = ks) := by
  refine ⟨?_, ?_, ?_, ?_, ?_⟩
  · intro env fuel ks e h
    unfold ResolverExecute at h
    rcases hm : env.mapToShards 0 ks with e2 | sh
    · simp only [hm, Option.some.injEq, Except.error.injEq] at h
      exact Or.inr ⟨0, ks, by rw [hm, h]⟩
    · simp only [hm] at h
      exact resolverLoop_error_origin env fuel 0 ks sh e h
  · intro env fuel ks e h
    unfold ResolverExecuteBatch at h
    rcases hm : env.mapToShards 0 ks with e2 | sh
    · simp only [hm, Option.some.injEq, Except.error.injEq] at h
      exact Or.inr ⟨0, ks, by rw [hm, h]⟩
    · simp only [hm] at h
      exact resolverLoop_error_origin env fuel 0 ks sh e h
  · intro env qSql col qBV fuel ks e h
    unfold ResolverExecuteEntityIds at h
    rcases hm : env.mapEntityIds 0 ks with e2 | sm
    · simp only [hm, Option.some.injEq, Except.error.injEq] at h
      exact Or.inr ⟨0, ks, by rw [hm, h]⟩
    · simp only [hm] at h
      exact resolverEntityLoop_error_origin env qSql col qBV fuel 0 ks _ _ _ e h
  · intro env n ks e h
    unfold retryResolve
    rw [h]
  · intro env n ks e h
    unfold entityRetryResolve
    rw [h]

def wEnvC9 : RetryEnv QueryResult where
  dispatch := fun _ _ _ => .error (.generic "boom".toList)
  keyspaceAlias := fun _ _ => .error (.generic "alias down".toList)
  mapToShards := fun _ _ => .ok ["0".toList]

theorem retry_loop_alias_errors_swallowed_witness :
    retryEnvErr wEnvC9 (.generic "boom".toList) :=
  retry_loop_alias_errors_swallowed.1 wEnvC9 1 "u".toList
    (.generic "boom".toList) (by decide)

/-- C10: the update function of `AddShardReplicationRecord` leaves, for a
non-zero parent, exactly one link for the given tablet alias (with the
given parent), drops duplicates, and preserves all other links in their
original relative order; for a zero parent no link for the alias remains. -/
theorem addShardReplicationUpdate_spec (ta p : TabletAlias)
    (links : List ReplicationLink) :
    (p.isZero = false →
      (addShardReplicationUpdate ta p links).filter
        (fun l => decide (l.tabletAlias = ta)) = [⟨ta, p⟩] ∧
      (addShardReplicationUpdate ta p links).filter
        (fun l => !decide (l.tabletAlias = ta)) =
        links.filter (fun l => !decide (l.tabletAlias = ta))) ∧
    (p.isZero = true →
      (addShardReplicationUpdate ta p links).filter
        (fun l => decide (l.tabletAlias = ta)) = []) := by
  constructor
  · intro hz
    exact ⟨updateReplicationLinks_nonzero_match ta p hz links,
      updateReplicationLinks_nonzero_others ta p hz links⟩
  · intro hz
    unfold addShardReplicationUpdate
    rw [updateReplicationLinks_zero ta p hz links false]
    exact filter_match_of_filter_not ta links

theorem addShardReplicationUpdate_spec_witness :
    (addShardReplicationUpdate ⟨"c".toList, 1⟩ ⟨"c".toList, 2⟩
      [⟨⟨"c".toList, 1⟩, ⟨"c".toList, 3⟩⟩, ⟨⟨"d".toList, 1⟩, ⟨"c".toList, 9⟩⟩,
       ⟨⟨"c".toList, 1⟩, ⟨"c".toList, 4⟩⟩]).filter
      (fun l => decide (l.tabletAlias = ⟨"c".toList, 1⟩)) =
      [⟨⟨"c".toList, 1⟩, ⟨"c".toList, 2⟩⟩] ∧
    (addShardReplicationUpdate ⟨"c".toList, 1⟩ ⟨"c".toList, 2⟩
      [⟨⟨"c".toList, 1⟩, ⟨"c".toList, 3⟩⟩, ⟨⟨"d".toList, 1⟩, ⟨"c".toList, 9⟩⟩,
       ⟨⟨"c".toList, 1⟩, ⟨"c".toList, 4⟩⟩]).filter
      (fun l => !decide (l.tabletAlias = ⟨"c".toList, 1⟩)) =
      [⟨⟨"c".toList, 1⟩, ⟨"c".toList, 3⟩⟩, ⟨⟨"d".toList, 1⟩, ⟨"c".toList, 9⟩⟩,
       ⟨⟨"c".toList, 1⟩, ⟨"c".toList, 4⟩⟩].filter
        (fun l => !decide (l.tabletAlias = ⟨"c".toList, 1⟩)) :=
  (addShardReplicationUpdate_spec ⟨"c".toList, 1⟩ ⟨"c".toList, 2⟩
    [⟨⟨"c".toList, 1⟩, ⟨"c".toList, 3⟩⟩, ⟨⟨"d".toList, 1⟩, ⟨"c".toList, 9⟩⟩,
     ⟨⟨"c".toList, 1⟩, ⟨"c".toList, 4⟩⟩]).1 (by decide)
